import Mathlib

/-!
# Verification of the q2-stats plugin against its design specification

This file gives a shallow embedding of the q2-stats repository
(`src/q2_stats/plugin_setup.py` and the components its registrations
describe) and proves or refutes the specification's claims about it.

The repository's `src/` tree contains the plugin registration module
(`plugin_setup.py`), the package init, and the usage examples.  The
registrations fix, in source, the type-level contracts (which distribution
tags each entry point accepts, which parameter choices exist, and the
output tags of the facet methods) together with parameter descriptions
stating the behavioural contracts of the statistical routines.  The bodies
of the statistical routines themselves (`q2_stats.hypotheses`,
`q2_stats.meta.facet`) are not under `src/`; where a claim depends on
them, the corresponding definition below is modelled from the spec and
says so in its doc comment.
-/

namespace Q2Stats

/-! ## Type tags

`Dist1D[S, P]` in the registrations carries a structural tag `S` (the
first parameter: `Ordered`, `Unordered`, `Multi`, `NestedOrdered`,
`NestedUnordered`) and a pairing tag `P` (`Matched`, `Independent`).
-/

/-- The structural (ordering/multiplicity) tag of a `Dist1D` artifact. -/
inductive StructTag
  | ordered
  | unordered
  | multi
  | nestedOrdered
  | nestedUnordered
  deriving DecidableEq

/-- The pairing tag of a `Dist1D` artifact. -/
inductive PairTag
  | matched
  | independent
  deriving DecidableEq

/-- A structural tag is single-level when it carries no nesting:
`Ordered` or `Unordered`. -/
def singleLevel : StructTag → Bool
  | .ordered => true
  | .unordered => true
  | _ => false

/-- The inner ordering tag wrapped by a nested structural tag:
`NestedOrdered` nests `Ordered`, `NestedUnordered` nests `Unordered`. -/
def innerOrdering : StructTag → Option StructTag
  | .nestedOrdered => some .ordered
  | .nestedUnordered => some .unordered
  | _ => none

/-! ## Facet method registrations (src/q2_stats/plugin_setup.py:155-185) -/

/-- Input acceptance of `facet_within`: the registration takes
`Dist1D[Multi | NestedOrdered | NestedUnordered, Matched | Independent]`. -/
def facet_within_accepts (s : StructTag) (_p : PairTag) : Bool :=
  match s with
  | .multi => true
  | .nestedOrdered => true
  | .nestedUnordered => true
  | _ => false

/-- Output tags of `facet_within`: the registration declares the output as
`Collection[Dist1D[Unordered, Independent]]`, for every accepted input. -/
def facet_within_output (_s : StructTag) (_p : PairTag) : StructTag × PairTag :=
  (.unordered, .independent)

/-- Output tags of `facet_across`: the registration's `TypeMap` sends
`NestedOrdered` to `Ordered` and `NestedUnordered` to `Unordered`, and the
`TypeMatch` `T_dep` carries the pairing tag through unchanged; other
structural tags are not accepted. -/
def facet_across_output (s : StructTag) (p : PairTag) : Option (StructTag × PairTag) :=
  match s with
  | .nestedOrdered => some (.ordered, p)
  | .nestedUnordered => some (.unordered, p)
  | _ => none

/-! ## mann_whitney_u registration (src/q2_stats/plugin_setup.py:40-48) -/

/-- `compare` choices of the `mann_whitney_u` registration. -/
def mwu_compare_choices : List String := ["reference", "all-pairwise"]

/-- Parameter names of the `mann_whitney_u` registration. -/
def mwu_parameters : List String :=
  ["compare", "reference_group", "alternative", "p_val_approx"]

/-- Parameter names of the `wilcoxon_srt` registration
(src/q2_stats/plugin_setup.py:90-94). -/
def wilcoxon_parameters : List String :=
  ["compare", "baseline_group", "alternative", "p_val_approx",
   "ignore_empty_comparator"]

/-- Acceptance of the primary `distribution` input of `mann_whitney_u`:
`Dist1D[Unordered | Ordered, Independent]`. -/
def mwu_dist_ok (s : StructTag) (p : PairTag) : Bool :=
  (s == .unordered || s == .ordered) && p == .independent

/-- Acceptance of the `against_each` input of `mann_whitney_u`:
`Dist1D[Unordered | Ordered, Matched | Independent]`. -/
def mwu_against_ok (s : StructTag) (_p : PairTag) : Bool :=
  s == .unordered || s == .ordered

/-- A call to the `mann_whitney_u` entry point, reduced to the data the
registration constrains. -/
structure MWUCall where
  distStruct : StructTag
  distPair : PairTag
  againstStruct : StructTag
  againstPair : PairTag
  compare : String

/-- The registration-level acceptance check of `mann_whitney_u`: the host
framework rejects, before the test runs, any call whose inputs or `compare`
choice fall outside the registered types. -/
def mwu_accepts (c : MWUCall) : Bool :=
  mwu_dist_ok c.distStruct c.distPair &&
  mwu_against_ok c.againstStruct c.againstPair &&
  decide (c.compare ∈ mwu_compare_choices)

/-! ## mann_whitney_u_facet registration (src/q2_stats/plugin_setup.py:200-222) -/

/-- The `T_dist`/`T_facet` `TypeMap` of the `mann_whitney_u_facet`
pipeline: for each accepted distribution tag pair, the list of `facet`
choices; `none` for tag pairs with no entry in the map. -/
def mwu_facet_choices : StructTag → PairTag → Option (List String)
  | .multi, .independent => some ["within"]
  | .nestedOrdered, .matched => some ["within"]
  | .nestedUnordered, .matched => some ["within"]
  | .nestedOrdered, .independent => some ["within", "across"]
  | .nestedUnordered, .independent => some ["within", "across"]
  | _, _ => none

/-- Registration-level acceptance of a `mann_whitney_u_facet` call. -/
def mwu_facet_accepts (s : StructTag) (p : PairTag) (f : String) : Bool :=
  match mwu_facet_choices s p with
  | some cs => decide (f ∈ cs)
  | none => false

/-! ## P-value method selection -/

/-- Which p-value computation a test run actually uses. -/
inductive PMethod
  | exact
  | asymptotic
  deriving DecidableEq

/-- Errors raised by the statistical components (spec section 7). -/
inductive StatsError
  | insufficientPairing
  | invalidComparison
  | unsupportedExact
  | invalidChoice
  deriving DecidableEq

/-- The `"auto"` method selection of `mann_whitney_u`, translated from the
`p_val_approx` parameter description of its registration
(src/q2_stats/plugin_setup.py:70-74), the only statement of this rule under
`src/` (the selection itself runs in `q2_stats.hypotheses`): `"auto"` uses
`"exact"` when one of the groups has less than 8 observations and there
are no ties, otherwise `"asymptotic"`. -/
def mwu_auto_method (nA nB : Nat) (ties : Bool) : PMethod :=
  if (nA < 8 || nB < 8) && !ties then .exact else .asymptotic

/-- Modelled from the spec: the p-value method selection of `wilcoxon_srt`
runs in `q2_stats.hypotheses`, which is not under `src/`.  Its registration
(src/q2_stats/plugin_setup.py:115-119) states that `"exact"` is valid for
distributions of up to 25 (inclusive) measurements and that `"auto"`
chooses by size; per the spec, `"auto"` picks exact within that threshold
and asymptotic beyond it, and an explicit `"exact"` request beyond the
threshold is a hard `UnsupportedExactError`. -/
def wilcoxon_choose_method (approx : String) (n : Nat) : Except StatsError PMethod :=
  if approx = "exact" then
    if n ≤ 25 then .ok .exact else .error .unsupportedExact
  else if approx = "asymptotic" then .ok .asymptotic
  else if approx = "auto" then
    .ok (if n ≤ 25 then .exact else .asymptotic)
  else .error .invalidChoice

/-! ## Theorems on the registrations -/

/-- C2, counterexample: the claim says every facet's sub-distribution keeps
the pairing tag of the input, but `facet_within` on a
`Dist1D[NestedOrdered, Matched]` input is registered to output
`Collection[Dist1D[Unordered, Independent]]`: the pairing tag `Matched` is
not kept (nor is the inner `Ordered` tag). -/
theorem facet_within_preserves_tags_cex :
    (facet_within_accepts .nestedOrdered .matched = true) ∧
    (facet_within_output .nestedOrdered .matched).2 ≠ PairTag.matched ∧
    (facet_within_output .nestedOrdered .matched).1 ≠ StructTag.ordered := by
  refine ⟨rfl, ?_, ?_⟩ <;> decide

/-- C2, amended: `facet_across` keeps the pairing tag and turns the nested
structural tag into the inner ordering tag, and its facets are single
level; `facet_within` also produces single-level facets, but always tagged
`Unordered, Independent` regardless of the input's tags. -/
theorem facet_tags_spec :
    (∀ s p, facet_within_accepts s p = true →
      facet_within_output s p = (.unordered, .independent) ∧
      singleLevel (facet_within_output s p).1 = true) ∧
    (∀ s p out, facet_across_output s p = some out →
      out.2 = p ∧ some out.1 = innerOrdering s ∧ singleLevel out.1 = true) := by
  constructor
  · intro s p _
    exact ⟨rfl, rfl⟩
  · intro s p out h
    cases s <;> cases p <;> simp_all [facet_across_output, innerOrdering] <;>
      simp [← h, singleLevel]

/-- C2, witness for the amended theorem at concrete tags. -/
theorem facet_tags_spec_witness :
    (facet_within_accepts .nestedOrdered .matched = true ∧
      facet_within_output .nestedOrdered .matched = (.unordered, .independent)) ∧
    (facet_across_output .nestedOrdered .matched = some (.ordered, .matched) ∧
      (StructTag.ordered, PairTag.matched).2 = PairTag.matched ∧
      some (StructTag.ordered, PairTag.matched).1 = innerOrdering .nestedOrdered ∧
      singleLevel (StructTag.ordered, PairTag.matched).1 = true) := by
  constructor
  · exact ⟨rfl, (facet_tags_spec.1 .nestedOrdered .matched rfl).1⟩
  · exact ⟨rfl, facet_tags_spec.2 .nestedOrdered .matched (.ordered, .matched) rfl⟩

/-- C9: `mann_whitney_u` accepts a call exactly when its `compare` choice
is `"reference"` or `"all-pairwise"`, its primary distribution is
`Independent` with a single-level structural tag, and `against_each` has a
single-level structural tag with either pairing; and the registration has
no `ignore_empty_comparator` parameter (while `wilcoxon_srt` has one). -/
theorem mwu_registration_spec :
    (∀ c : MWUCall, mwu_accepts c = true ↔
      ((c.compare = "reference" ∨ c.compare = "all-pairwise") ∧
        c.distPair = .independent ∧
        (c.distStruct = .ordered ∨ c.distStruct = .unordered) ∧
        (c.againstStruct = .ordered ∨ c.againstStruct = .unordered))) ∧
    "ignore_empty_comparator" ∉ mwu_parameters ∧
    "ignore_empty_comparator" ∈ wilcoxon_parameters := by
  refine ⟨?_, by decide, by decide⟩
  rintro ⟨ds, dp, as, ap, cmp⟩
  cases ds <;> cases dp <;> cases as <;> cases ap <;>
    simp [mwu_accepts, mwu_dist_ok, mwu_against_ok, mwu_compare_choices]

/-- C10: in the `mann_whitney_u_facet` pipeline, `facet="across"` is
accepted exactly on `NestedOrdered`/`NestedUnordered` with `Independent`
pairing; on `Multi`-`Independent` and on nested-`Matched` inputs only
`"within"` is accepted; `Multi`-`Matched` and single-level inputs are
rejected for every facet choice. -/
theorem mwu_facet_typemap_spec :
    (∀ s p, mwu_facet_accepts s p "across" = true ↔
      ((s = .nestedOrdered ∨ s = .nestedUnordered) ∧ p = .independent)) ∧
    (∀ f, mwu_facet_accepts .multi .independent f = true ↔ f = "within") ∧
    (∀ s f, (s = .nestedOrdered ∨ s = .nestedUnordered) →
      (mwu_facet_accepts s .matched f = true ↔ f = "within")) ∧
    (∀ p f, mwu_facet_accepts .multi .matched f = false ∧
      mwu_facet_accepts .ordered p f = false ∧
      mwu_facet_accepts .unordered p f = false) := by
  refine ⟨?_, ?_, ?_, ?_⟩
  · intro s p
    cases s <;> cases p <;> simp [mwu_facet_accepts, mwu_facet_choices]
  · intro f
    simp [mwu_facet_accepts, mwu_facet_choices]
  · rintro s f (rfl | rfl) <;> simp [mwu_facet_accepts, mwu_facet_choices]
  · intro p f
    refine ⟨rfl, ?_, ?_⟩ <;> cases p <;> rfl

/-- C10, witness at concrete tags and facet choices. -/
theorem mwu_facet_typemap_spec_witness :
    (mwu_facet_accepts .nestedOrdered .independent "across" = true) ∧
    (mwu_facet_accepts .multi .independent "across" = false) ∧
    (mwu_facet_accepts .nestedOrdered .matched "within" = true) ∧
    (mwu_facet_accepts .multi .matched "within" = false) := by
  have h1 := (mwu_facet_typemap_spec.1 .nestedOrdered .independent).2
    ⟨Or.inl rfl, rfl⟩
  have h3 := (mwu_facet_typemap_spec.2.2.1 .nestedOrdered "within"
    (Or.inl rfl)).2 rfl
  have h4 := (mwu_facet_typemap_spec.2.2.2 PairTag.matched "within").1
  refine ⟨h1, ?_, h3, h4⟩
  have h2 := mwu_facet_typemap_spec.2.1 "across"
  simp only [Bool.eq_false_iff]
  intro hcontra
  exact absurd (h2.1 hcontra) (by decide)

/-! ## Theorems on p-value method selection -/

/-- C1, counterexample: with group sizes 3 and 10 and no ties, the source's
`"auto"` rule (exact when one of the groups has fewer than 8 observations
and no ties) selects the exact method, while the claim (exact iff both
groups have fewer than 8 observations and no ties) requires asymptotic
here, since 10 is not below 8. -/
theorem mwu_auto_both_groups_cex :
    ¬ (mwu_auto_method 3 10 false = PMethod.exact ↔ (3 < 8 ∧ 10 < 8)) := by
  decide

/-- C1, amended: with `p_val_approx = "auto"`, `mann_whitney_u` selects the
exact method if and only if at least one of the two groups has fewer than
8 observations and there are no tied values in the pooled sample; in every
other case the asymptotic method is used. -/
theorem mwu_auto_method_spec (nA nB : Nat) (ties : Bool) :
    mwu_auto_method nA nB ties = PMethod.exact ↔
      ((nA < 8 ∨ nB < 8) ∧ ties = false) := by
  unfold mwu_auto_method
  cases ties
  · simp
    omega
  · simp

/-- C4: for `wilcoxon_srt`, an explicit `"exact"` request succeeds exactly
when the combined sample size is at most 25 (inclusive), and `"auto"`
chooses the exact method up to that threshold and the asymptotic method
above it. -/
theorem wilcoxon_method_threshold_spec (n : Nat) :
    (wilcoxon_choose_method "exact" n = .ok .exact ↔ n ≤ 25) ∧
    (n ≤ 25 → wilcoxon_choose_method "auto" n = .ok .exact) ∧
    (25 < n → wilcoxon_choose_method "auto" n = .ok .asymptotic) := by
  unfold wilcoxon_choose_method
  refine ⟨?_, ?_, ?_⟩
  · by_cases h : n ≤ 25 <;> simp [h]
  · intro h
    simp [h]
  · intro h
    have h' : ¬ n ≤ 25 := by omega
    simp [h']

/-- C4, witness at combined sizes 25 and 26. -/
theorem wilcoxon_method_threshold_spec_witness :
    (wilcoxon_choose_method "exact" 25 = .ok .exact) ∧
    (wilcoxon_choose_method "auto" 25 = .ok .exact) ∧
    (wilcoxon_choose_method "auto" 26 = .ok .asymptotic) ∧
    (wilcoxon_choose_method "exact" 26 ≠ .ok .exact) := by
  refine ⟨?_, (wilcoxon_method_threshold_spec 25).2.1 (by decide),
    (wilcoxon_method_threshold_spec 26).2.2 (by decide), ?_⟩
  · exact (wilcoxon_method_threshold_spec 25).1.2 (by decide)
  · intro h
    exact absurd ((wilcoxon_method_threshold_spec 26).1.1 h) (by decide)

/-! ## Comparison strategy resolver

The resolver itself runs in `q2_stats.hypotheses`, which is not under
`src/`; the definitions below are modelled from the spec (section 4.3),
with the comparison-mode choices taken from the registrations
(src/q2_stats/plugin_setup.py:45 and :90).
-/

/-- The comparison modes offered across the two registrations. -/
inductive CompareMode
  | allPairwise
  | reference
  | baseline
  | consecutive
  deriving DecidableEq

/-- Modelled from the spec: the `all-pairwise` comparison of the missing
resolver emits every unordered pair of distinct groups once, in the stable
order induced by the group list. -/
def allPairwisePairs : List String → List (String × String)
  | [] => []
  | g :: gs => gs.map (fun h => (g, h)) ++ allPairwisePairs gs

/-- Modelled from the spec: the `reference`/`baseline` comparison of the
missing resolver pairs the named reference group, always as Group A,
against every other group. -/
def referencePairs (ref : String) (groups : List String) : List (String × String) :=
  (groups.filter (fun g => g ≠ ref)).map (fun g => (ref, g))

/-- Modelled from the spec: the `consecutive` comparison of the missing
resolver pairs each group with its immediate successor in the group
order. -/
def consecutivePairs (groups : List String) : List (String × String) :=
  groups.zip groups.tail

/-- Modelled from the spec: the Comparison Strategy Resolver of the
missing `q2_stats.hypotheses` module maps a comparison mode and the
distribution's structural tag to the list of (Group A, Group B) pairs to
test, failing with `InvalidComparisonError` when `consecutive` is
requested on a distribution that is not `Ordered`. -/
def resolveComparison (mode : CompareMode) (ord : StructTag) (ref : String)
    (groups : List String) : Except StatsError (List (String × String)) :=
  match mode with
  | .allPairwise => .ok (allPairwisePairs groups)
  | .reference => .ok (referencePairs ref groups)
  | .baseline => .ok (referencePairs ref groups)
  | .consecutive =>
    if ord = .ordered then .ok (consecutivePairs groups)
    else .error .invalidComparison

/-- Both components of any pair emitted by `allPairwisePairs` come from
the group list, and the second follows the first strictly in it. -/
theorem allPairwisePairs_mem {groups : List String} {p : String × String}
    (hp : p ∈ allPairwisePairs groups) : p.1 ∈ groups ∧ p.2 ∈ groups := by
  induction groups with
  | nil => simp [allPairwisePairs] at hp
  | cons g gs ih =>
    simp only [allPairwisePairs, List.mem_append, List.mem_map] at hp
    rcases hp with ⟨h', hh', rfl⟩ | hp
    · exact ⟨List.mem_cons_self g gs, List.mem_cons_of_mem g hh'⟩
    · obtain ⟨h1, h2⟩ := ih hp
      exact ⟨List.mem_cons_of_mem g h1, List.mem_cons_of_mem g h2⟩

/-- Twice the length of `allPairwisePairs groups` is `n * (n - 1)` for
`n` the number of groups. -/
theorem allPairwisePairs_length_mul (groups : List String) :
    2 * (allPairwisePairs groups).length =
      groups.length * (groups.length - 1) := by
  induction groups with
  | nil => rfl
  | cons g gs ih =>
    simp only [allPairwisePairs, List.length_append, List.length_map,
      List.length_cons]
    have h2 : 2 * (gs.length + (allPairwisePairs gs).length) =
        2 * gs.length + 2 * (allPairwisePairs gs).length := by ring
    rw [h2, ih]
    have harith : ∀ k : Nat, 2 * k + k * (k - 1) = (k + 1) * (k + 1 - 1) := by
      intro k
      cases k with
      | zero => rfl
      | succ m =>
        simp only [Nat.add_sub_cancel]
        ring
    exact harith gs.length

/-- On a duplicate-free group list, `allPairwisePairs` contains no
duplicate pair. -/
theorem allPairwisePairs_nodup {groups : List String} (h : groups.Nodup) :
    (allPairwisePairs groups).Nodup := by
  induction groups with
  | nil => simp [allPairwisePairs]
  | cons g gs ih =>
    rw [List.nodup_cons] at h
    obtain ⟨hg, hgs⟩ := h
    refine List.Nodup.append ?_ (ih hgs) ?_
    · exact hgs.map fun a b hab => congrArg Prod.snd hab
    · intro p hp1 hp2
      obtain ⟨h', _, rfl⟩ := List.mem_map.mp hp1
      exact hg (allPairwisePairs_mem hp2).1

/-- On a duplicate-free group list, `allPairwisePairs` contains no pair of
a group with itself. -/
theorem allPairwisePairs_irrefl {groups : List String} (h : groups.Nodup) :
    ∀ p ∈ allPairwisePairs groups, p.1 ≠ p.2 := by
  induction groups with
  | nil => simp [allPairwisePairs]
  | cons g gs ih =>
    rw [List.nodup_cons] at h
    obtain ⟨hg, hgs⟩ := h
    intro p hp
    rcases List.mem_append.mp hp with hp1 | hp2
    · obtain ⟨h', hh', rfl⟩ := List.mem_map.mp hp1
      intro he
      simp only at he
      subst he
      exact hg hh'
    · exact ih hgs p hp2

/-- `consecutivePairs` produces one pair fewer than there are groups. -/
theorem consecutivePairs_length (groups : List String) :
    (consecutivePairs groups).length = groups.length - 1 := by
  simp only [consecutivePairs, List.length_zip, List.length_tail]
  omega

/-- The `i`-th pair of `consecutivePairs` is the `i`-th group with its
immediate successor. -/
theorem consecutivePairs_get (groups : List String) (i : Nat)
    (hc : i < (consecutivePairs groups).length) :
    (consecutivePairs groups).get ⟨i, hc⟩ =
      (groups.get ⟨i, by
        have h := consecutivePairs_length groups; omega⟩,
       groups.get ⟨i + 1, by
        have h := consecutivePairs_length groups; omega⟩) := by
  simp only [consecutivePairs, List.get_eq_getElem, List.getElem_zip,
    List.getElem_tail]

/-- On a duplicate-free group list, `consecutivePairs` contains no
self-pair. -/
theorem consecutivePairs_irrefl {groups : List String} (h : groups.Nodup) :
    ∀ p ∈ consecutivePairs groups, p.1 ≠ p.2 := by
  intro p hp
  obtain ⟨⟨i, hi⟩, hget⟩ := List.get_of_mem hp
  rw [consecutivePairs_get groups i hi] at hget
  intro he
  rw [← hget] at he
  simp only at he
  have hinj := List.nodup_iff_injective_get.mp h he
  have hiv : i = i + 1 := congrArg Fin.val hinj
  omega

/-- On a duplicate-free group list, `consecutivePairs` contains no
duplicate pair. -/
theorem consecutivePairs_nodup {groups : List String} (h : groups.Nodup) :
    (consecutivePairs groups).Nodup := by
  rw [List.nodup_iff_injective_get]
  intro ⟨i, hi⟩ ⟨j, hj⟩ hij
  rw [consecutivePairs_get groups i hi, consecutivePairs_get groups j hj] at hij
  have h1 := congrArg Prod.fst hij
  have hinj := List.nodup_iff_injective_get.mp h h1
  have hval : i = j := congrArg Fin.val hinj
  exact Fin.ext hval

/-- `referencePairs` never pairs the reference group with itself. -/
theorem referencePairs_irrefl (ref : String) (groups : List String) :
    ∀ p ∈ referencePairs ref groups, p.1 ≠ p.2 := by
  intro p hp
  obtain ⟨g, hg, rfl⟩ := List.mem_map.mp hp
  have := List.of_mem_filter hg
  simp only [ne_eq, decide_not, Bool.not_eq_true', decide_eq_false_iff_not] at this
  exact fun he => this he.symm

/-- On a duplicate-free group list, `referencePairs` contains no duplicate
pair. -/
theorem referencePairs_nodup (ref : String) {groups : List String}
    (h : groups.Nodup) : (referencePairs ref groups).Nodup :=
  (h.filter _).map fun _ _ hab => congrArg Prod.snd hab

/-- C5: the `consecutive` comparison fails with `InvalidComparisonError`
on an `Unordered` distribution, and on an `Ordered` distribution it
produces the consecutive pairs: one pair fewer than there are groups, the
`i`-th pair being the `i`-th group with its immediate successor in the
natural group order. -/
theorem consecutive_comparison_spec (ref : String) (groups : List String) :
    (resolveComparison .consecutive .unordered ref groups =
      .error .invalidComparison) ∧
    (resolveComparison .consecutive .ordered ref groups =
      .ok (consecutivePairs groups)) ∧
    (consecutivePairs groups).length = groups.length - 1 ∧
    (∀ (i : Nat) (hc : i < (consecutivePairs groups).length),
      (consecutivePairs groups).get ⟨i, hc⟩ =
        (groups.get ⟨i, by
          have hl := consecutivePairs_length groups; omega⟩,
         groups.get ⟨i + 1, by
          have hl := consecutivePairs_length groups; omega⟩)) := by
  exact ⟨rfl, rfl, consecutivePairs_length groups,
    fun i hc => consecutivePairs_get groups i hc⟩

/-- C5, witness on the ordered groups `["t0", "t1", "t2"]`. -/
theorem consecutive_comparison_spec_witness :
    (resolveComparison .consecutive .unordered "t0" ["t0", "t1", "t2"] =
      .error .invalidComparison) ∧
    (resolveComparison .consecutive .ordered "t0" ["t0", "t1", "t2"] =
      .ok (consecutivePairs ["t0", "t1", "t2"])) ∧
    (consecutivePairs ["t0", "t1", "t2"]).length = 2 ∧
    (consecutivePairs ["t0", "t1", "t2"]).get ⟨0, by decide⟩ = ("t0", "t1") := by
  have h := consecutive_comparison_spec "t0" ["t0", "t1", "t2"]
  refine ⟨h.1, h.2.1, h.2.2.1, ?_⟩
  have h4 := h.2.2.2 0 (by decide)
  rw [h4]
  rfl

/-- C6: on `n` duplicate-free groups, `all-pairwise` produces exactly
`n * (n - 1) / 2` pairs with no duplicate pair and no self-pair (its order
is fixed by the group order, the resolver being a pure function); and no
resolver mode (`all-pairwise`, `reference`/`baseline`, `consecutive`)
produces a duplicate pair or a self-pair. -/
theorem resolver_pairs_spec (ref : String) {groups : List String}
    (h : groups.Nodup) :
    (allPairwisePairs groups).length =
      groups.length * (groups.length - 1) / 2 ∧
    (allPairwisePairs groups).Nodup ∧
    (∀ p ∈ allPairwisePairs groups, p.1 ≠ p.2) ∧
    (referencePairs ref groups).Nodup ∧
    (∀ p ∈ referencePairs ref groups, p.1 ≠ p.2) ∧
    (consecutivePairs groups).Nodup ∧
    (∀ p ∈ consecutivePairs groups, p.1 ≠ p.2) := by
  refine ⟨?_, allPairwisePairs_nodup h, allPairwisePairs_irrefl h,
    referencePairs_nodup ref h, referencePairs_irrefl ref groups,
    consecutivePairs_nodup h, consecutivePairs_irrefl h⟩
  have hm := allPairwisePairs_length_mul groups
  have hdiv : groups.length * (groups.length - 1) / 2 =
      (allPairwisePairs groups).length := by
    rw [← hm]
    exact Nat.mul_div_cancel_left _ (by norm_num)
  exact hdiv.symm

/-- C6, witness on the duplicate-free groups `["a", "b", "c"]`. -/
theorem resolver_pairs_spec_witness :
    List.Nodup ["a", "b", "c"] ∧
    (allPairwisePairs ["a", "b", "c"]).length = 3 * (3 - 1) / 2 ∧
    (allPairwisePairs ["a", "b", "c"]).Nodup ∧
    (referencePairs "a" ["a", "b", "c"]).Nodup ∧
    (consecutivePairs ["a", "b", "c"]).Nodup := by
  have h := resolver_pairs_spec "a"
    (show List.Nodup ["a", "b", "c"] by decide)
  exact ⟨by decide, h.1, h.2.1, h.2.2.2.1, h.2.2.2.2.2.1⟩

/-! ## Distribution records and the two test statistics

The Distribution Model and the statistic computations run in
`q2_stats.hypotheses`, which is not under `src/`; the definitions below
are modelled from the spec (sections 3, 4.1 and 4.2).  Measurement values
(floats in the source) are modelled as rationals; the statistics below are
rank arithmetic, which is exact.
-/

/-- A long-form measurement record of a `Dist1D` distribution: a group
label, a subject label (meaningful when the pairing is `Matched`), and a
measurement value. -/
structure Record where
  group : String
  subject : String
  value : ℚ
  deriving DecidableEq

/-- Modelled from the spec: `values_for(group)` of the missing
Distribution Model — the measurement values of one group, in record
order. -/
def valuesIn (recs : List Record) (g : String) : List ℚ :=
  (recs.filter (fun r => r.group == g)).map (fun r => r.value)

/-- Modelled from the spec: the subject-aligned lookup behind
`paired_values_for` of the missing Distribution Model — the value the
given subject has in the given group, if any. -/
def subjectLookup (recs : List Record) (g s : String) : Option ℚ :=
  (recs.find? (fun r => r.group == g && r.subject == s)).map (fun r => r.value)

/-- Modelled from the spec: `paired_values_for(group_a, group_b)` of the
missing Distribution Model — the (value in A, value in B) pairs of the
subjects of group A that are also present in group B. -/
def pairedValues (recs : List Record) (a b : String) : List (ℚ × ℚ) :=
  (recs.filter (fun r => r.group == a)).filterMap
    (fun r => (subjectLookup recs b r.subject).map (fun v => (r.value, v)))

/-- The midrank of value `v` within the pooled sample `S`: tied values
receive the average of the ranks their block occupies. -/
def avgRank (S : List ℚ) (v : ℚ) : ℚ :=
  ((S.countP (fun w => decide (w < v)) : ℚ) +
    (S.countP (fun w => decide (w ≤ v)) : ℚ) + 1) / 2

/-- Modelled from the spec: the Mann-Whitney rank sum of group A — the sum
of the midranks of A's values within the pooled sample. -/
def rankSumA (A B : List ℚ) : ℚ := (A.map (avgRank (A ++ B))).sum

/-- Modelled from the spec: the Mann-Whitney U statistic of the missing
`q2_stats.hypotheses` engine, computed from the rank sum of group A over
the pooled ranking with average ranks on ties. -/
def mwu_u (A B : List ℚ) : ℚ :=
  rankSumA A B - (A.length : ℚ) * ((A.length : ℚ) + 1) / 2

/-- Modelled from the spec: the per-subject signed differences of a paired
sample, with zero differences dropped. -/
def signedDiffs (pairs : List (ℚ × ℚ)) : List ℚ :=
  (pairs.map (fun p => p.1 - p.2)).filter (fun d => d != 0)

/-- Modelled from the spec: the Wilcoxon signed-rank statistic of the
missing `q2_stats.hypotheses` engine — the sum of signed ranks of the
nonzero differences, ranked by absolute value with average ranks on
ties. -/
def wilcoxonStat (pairs : List (ℚ × ℚ)) : ℚ :=
  ((signedDiffs pairs).map (fun x =>
    (if 0 < x then (1 : ℚ) else -1) *
      avgRank ((signedDiffs pairs).map (fun y => |y|)) |x|)).sum

/-! ## Permutation invariance of the statistics -/

/-- Midranks only depend on the pooled sample as a multiset. -/
theorem avgRank_perm {S S' : List ℚ} (h : S.Perm S') (v : ℚ) :
    avgRank S v = avgRank S' v := by
  unfold avgRank
  rw [h.countP_eq, h.countP_eq]

/-- The Mann-Whitney U statistic only depends on each group as a
multiset. -/
theorem mwu_u_perm {A A' B B' : List ℚ} (hA : A.Perm A') (hB : B.Perm B') :
    mwu_u A B = mwu_u A' B' := by
  unfold mwu_u rankSumA
  have hpool : (A ++ B).Perm (A' ++ B') := hA.append hB
  have hf : avgRank (A ++ B) = avgRank (A' ++ B') :=
    funext fun v => avgRank_perm hpool v
  rw [hf, hA.length_eq, (hA.map (avgRank (A' ++ B'))).sum_eq]

/-- Permuting the paired sample permutes its nonzero signed
differences. -/
theorem signedDiffs_perm {l l' : List (ℚ × ℚ)} (h : l.Perm l') :
    (signedDiffs l).Perm (signedDiffs l') :=
  (h.map _).filter _

/-- The Wilcoxon signed-rank statistic only depends on the paired sample
as a multiset. -/
theorem wilcoxonStat_perm {l l' : List (ℚ × ℚ)} (h : l.Perm l') :
    wilcoxonStat l = wilcoxonStat l' := by
  unfold wilcoxonStat
  have hd := signedDiffs_perm h
  have habs : ((signedDiffs l).map (fun y => |y|)).Perm
      ((signedDiffs l').map (fun y => |y|)) := hd.map _
  have hf : avgRank ((signedDiffs l).map (fun y => |y|)) =
      avgRank ((signedDiffs l').map (fun y => |y|)) :=
    funext fun v => avgRank_perm habs v
  rw [hf, (hd.map _).sum_eq]

/-- `find?` returns the head of the filtered list. -/
theorem find?_eq_head?_filter {α : Type} (p : α → Bool) :
    ∀ l : List α, l.find? p = (l.filter p).head? := by
  intro l
  induction l with
  | nil => rfl
  | cons a t ih =>
    by_cases h : p a
    · rw [List.find?_cons_of_pos _ h, List.filter_cons_of_pos h]
      rfl
    · rw [List.find?_cons_of_neg _ h, List.filter_cons_of_neg h, ih]

/-- A predicate with at most one satisfier finds the same element in every
permutation of the list. -/
theorem find?_perm_of_subsingleton {α : Type} {l l' : List α} (p : α → Bool)
    (h : l.Perm l') (hu : (l.filter p).length ≤ 1) :
    l.find? p = l'.find? p := by
  rw [find?_eq_head?_filter, find?_eq_head?_filter]
  have hp := h.filter p
  cases hfl : l.filter p with
  | nil =>
    rw [hfl] at hp
    rw [hp.symm.eq_nil]
  | cons a t =>
    rw [hfl] at hp hu
    have ht : t = [] := by
      cases t with
      | nil => rfl
      | cons c t' => simp at hu
    subst ht
    rw [List.singleton_perm.mp hp]

/-- In a list whose `q`-filtered image under `f` is duplicate-free, at
most one element satisfies `q` together with a fixed `f`-value. -/
theorem filter_and_length_le_one {β : Type} (f : β → String) (s : String)
    (q : β → Bool) :
    ∀ l : List β, ((l.filter q).map f).Nodup →
      (l.filter (fun r => q r && (f r == s))).length ≤ 1 := by
  intro l
  induction l with
  | nil => intro _; simp
  | cons a t ih =>
    intro hn
    by_cases hq : q a
    · rw [List.filter_cons_of_pos hq] at hn
      simp only [List.map_cons, List.nodup_cons] at hn
      obtain ⟨hna, hnt⟩ := hn
      by_cases hfa : f a = s
      · rw [List.filter_cons_of_pos (by simp [hq, hfa])]
        simp only [List.length_cons]
        have hnil : t.filter (fun r => q r && (f r == s)) = [] := by
          rw [List.filter_eq_nil_iff]
          intro r hr
          simp only [Bool.and_eq_true, beq_iff_eq, not_and]
          intro hqr hfr
          apply hna
          rw [hfa, ← hfr]
          exact List.mem_map_of_mem f (List.mem_filter.mpr ⟨hr, hqr⟩)
        rw [hnil]
        simp
      · rw [List.filter_cons_of_neg (by simp [hfa])]
        exact ih hnt
    · rw [List.filter_cons_of_neg hq] at hn
      rw [List.filter_cons_of_neg (by simp [hq])]
      exact ih hn

/-- When the subjects of group `b` are duplicate-free, the subject lookup
in `b` is unchanged by any permutation of the records. -/
theorem subjectLookup_perm {recs recs' : List Record} (h : recs.Perm recs')
    (b : String)
    (hnd : ((recs.filter (fun r => r.group == b)).map
      (fun r => r.subject)).Nodup) (s : String) :
    subjectLookup recs b s = subjectLookup recs' b s := by
  unfold subjectLookup
  rw [find?_perm_of_subsingleton _ h
    (filter_and_length_le_one (fun r => r.subject) s
      (fun r => r.group == b) recs hnd)]

/-- When the subjects of group `b` are duplicate-free, permuting the
records permutes the paired values of `(a, b)`. -/
theorem pairedValues_perm {recs recs' : List Record} (h : recs.Perm recs')
    (a b : String)
    (hnd : ((recs.filter (fun r => r.group == b)).map
      (fun r => r.subject)).Nodup) :
    (pairedValues recs a b).Perm (pairedValues recs' a b) := by
  unfold pairedValues
  have hsl : (fun r : Record => (subjectLookup recs b r.subject).map
      (fun v => (r.value, v))) =
      (fun r : Record => (subjectLookup recs' b r.subject).map
        (fun v => (r.value, v))) := by
    funext r
    rw [subjectLookup_perm h b hnd r.subject]
  rw [← hsl]
  exact (h.filter _).filterMap _

/-- C8: for groups A and B, the Mann-Whitney U statistic and (when the
subjects of group B are duplicate-free, as the matched design requires)
the Wilcoxon signed-rank statistic are unchanged by any reordering of the
input records. -/
theorem statistic_order_invariant (recs recs' : List Record) (a b : String)
    (hperm : recs.Perm recs')
    (hnd : ((recs.filter (fun r => r.group == b)).map
      (fun r => r.subject)).Nodup) :
    mwu_u (valuesIn recs a) (valuesIn recs b) =
      mwu_u (valuesIn recs' a) (valuesIn recs' b) ∧
    wilcoxonStat (pairedValues recs a b) =
      wilcoxonStat (pairedValues recs' a b) := by
  constructor
  · exact mwu_u_perm ((hperm.filter _).map _) ((hperm.filter _).map _)
  · exact wilcoxonStat_perm (pairedValues_perm hperm a b hnd)

/-- C8, witness: swapping the first two records of a concrete four-record
distribution changes neither statistic. -/
theorem statistic_order_invariant_witness :
    ((⟨"g1", "s1", 1⟩ :: ⟨"g1", "s2", 2⟩ ::
        [⟨"g2", "s1", 3⟩, ⟨"g2", "s2", 5⟩] : List Record).Perm
      (⟨"g1", "s2", 2⟩ :: ⟨"g1", "s1", 1⟩ ::
        [⟨"g2", "s1", 3⟩, ⟨"g2", "s2", 5⟩])) ∧
    mwu_u
      (valuesIn [⟨"g1", "s1", 1⟩, ⟨"g1", "s2", 2⟩,
        ⟨"g2", "s1", 3⟩, ⟨"g2", "s2", 5⟩] "g1")
      (valuesIn [⟨"g1", "s1", 1⟩, ⟨"g1", "s2", 2⟩,
        ⟨"g2", "s1", 3⟩, ⟨"g2", "s2", 5⟩] "g2") =
    mwu_u
      (valuesIn [⟨"g1", "s2", 2⟩, ⟨"g1", "s1", 1⟩,
        ⟨"g2", "s1", 3⟩, ⟨"g2", "s2", 5⟩] "g1")
      (valuesIn [⟨"g1", "s2", 2⟩, ⟨"g1", "s1", 1⟩,
        ⟨"g2", "s1", 3⟩, ⟨"g2", "s2", 5⟩] "g2") ∧
    wilcoxonStat (pairedValues [⟨"g1", "s1", 1⟩, ⟨"g1", "s2", 2⟩,
        ⟨"g2", "s1", 3⟩, ⟨"g2", "s2", 5⟩] "g1" "g2") =
      wilcoxonStat (pairedValues [⟨"g1", "s2", 2⟩, ⟨"g1", "s1", 1⟩,
        ⟨"g2", "s1", 3⟩, ⟨"g2", "s2", 5⟩] "g1" "g2") := by
  have hperm : ((⟨"g1", "s1", 1⟩ :: ⟨"g1", "s2", 2⟩ ::
      [⟨"g2", "s1", 3⟩, ⟨"g2", "s2", 5⟩] : List Record).Perm
      (⟨"g1", "s2", 2⟩ :: ⟨"g1", "s1", 1⟩ ::
        [⟨"g2", "s1", 3⟩, ⟨"g2", "s2", 5⟩])) :=
    List.Perm.swap _ _ _
  have h := statistic_order_invariant
    [⟨"g1", "s1", 1⟩, ⟨"g1", "s2", 2⟩, ⟨"g2", "s1", 3⟩, ⟨"g2", "s2", 5⟩]
    [⟨"g1", "s2", 2⟩, ⟨"g1", "s1", 1⟩, ⟨"g2", "s1", 3⟩, ⟨"g2", "s2", 5⟩]
    "g1" "g2" hperm (by decide)
  exact ⟨hperm, h.1, h.2⟩

/-! ## Wilcoxon stats table build and `ignore_empty_comparator` -/

/-- One row of the Wilcoxon stats table.  A float NaN in the source is
modelled as `none`. -/
structure WRow where
  group_a : String
  group_b : String
  statistic : Option ℚ
  p_value : Option ℚ
  deriving DecidableEq

/-- Modelled from the spec: the row the missing Stats Table Builder emits
for one resolved pair — a NaN row when the pair has no paired subjects,
otherwise the signed-rank statistic and a p-value (the p-value computation
is abstracted as `pv`). -/
def wilcoxonRow (pv : List (ℚ × ℚ) → ℚ) (recs : List Record)
    (p : String × String) : WRow :=
  let d := pairedValues recs p.1 p.2
  if d = [] then ⟨p.1, p.2, none, none⟩
  else ⟨p.1, p.2, some (wilcoxonStat d), some (pv d)⟩

/-- Modelled from the spec: the missing Stats Table Builder loop of
`wilcoxon_srt` (spec section 4.4, and the `ignore_empty_comparator`
description registered in src/q2_stats/plugin_setup.py:120-123).  Each
resolved pair is processed in order; a pair with zero paired subjects
raises `InsufficientPairingError`, which under `ignore_empty_comparator`
degrades to a NaN row, and otherwise aborts the whole build. -/
def wilcoxon_build (pv : List (ℚ × ℚ) → ℚ) (ignore : Bool)
    (recs : List Record) :
    List (String × String) → Except StatsError (List WRow)
  | [] => .ok []
  | p :: ps =>
    let d := pairedValues recs p.1 p.2
    if d = [] then
      if ignore then
        (wilcoxon_build pv ignore recs ps).map
          (fun rows => ⟨p.1, p.2, none, none⟩ :: rows)
      else .error .insufficientPairing
    else
      (wilcoxon_build pv ignore recs ps).map
        (fun rows => ⟨p.1, p.2, some (wilcoxonStat d), some (pv d)⟩ :: rows)

/-- With `ignore_empty_comparator` set, the build never fails and emits
one row per resolved pair. -/
theorem wilcoxon_build_ignore (pv : List (ℚ × ℚ) → ℚ) (recs : List Record) :
    ∀ ps : List (String × String),
      wilcoxon_build pv true recs ps = .ok (ps.map (wilcoxonRow pv recs)) := by
  intro ps
  induction ps with
  | nil => rfl
  | cons p ps ih =>
    by_cases hd : pairedValues recs p.1 p.2 = []
    · simp [wilcoxon_build, wilcoxonRow, hd, ih, Except.map]
    · simp [wilcoxon_build, wilcoxonRow, hd, ih, Except.map]

/-- Without `ignore_empty_comparator`, a resolved pair with zero paired
subjects makes the whole build fail. -/
theorem wilcoxon_build_strict_error (pv : List (ℚ × ℚ) → ℚ)
    (recs : List Record) {a b : String} :
    ∀ ps : List (String × String), (a, b) ∈ ps →
      pairedValues recs a b = [] →
      wilcoxon_build pv false recs ps = .error .insufficientPairing := by
  intro ps
  induction ps with
  | nil => intro h; simp at h
  | cons p ps ih =>
    intro hmem hempty
    rcases List.mem_cons.mp hmem with rfl | htail
    · simp [wilcoxon_build, hempty]
    · by_cases hd : pairedValues recs p.1 p.2 = []
      · simp [wilcoxon_build, hd]
      · simp [wilcoxon_build, hd, ih htail hempty, Except.map]

/-- The group fields of a built row are the pair it was built for. -/
theorem wilcoxonRow_groups (pv : List (ℚ × ℚ) → ℚ) (recs : List Record)
    (p : String × String) :
    (wilcoxonRow pv recs p).group_a = p.1 ∧
      (wilcoxonRow pv recs p).group_b = p.2 := by
  unfold wilcoxonRow
  by_cases hd : pairedValues recs p.1 p.2 = [] <;> simp [hd]

/-- Filtering the built rows on the group fields of one pair keeps one
copy of that pair's row per occurrence of the pair. -/
theorem wilcoxon_rows_filter (pv : List (ℚ × ℚ) → ℚ) (recs : List Record)
    (a b : String) :
    ∀ ps : List (String × String),
      (ps.map (wilcoxonRow pv recs)).filter
          (fun r => r.group_a == a && r.group_b == b) =
        List.replicate (ps.count (a, b)) (wilcoxonRow pv recs (a, b)) := by
  intro ps
  induction ps with
  | nil => rfl
  | cons p ps ih =>
    by_cases hp : p = (a, b)
    · subst hp
      rw [List.map_cons, List.filter_cons_of_pos
        (by simp [(wilcoxonRow_groups pv recs (a, b)).1,
          (wilcoxonRow_groups pv recs (a, b)).2]), ih,
        List.count_cons_self, List.replicate_succ]
    · have hne : ((wilcoxonRow pv recs p).group_a == a &&
          (wilcoxonRow pv recs p).group_b == b) = false := by
        rw [(wilcoxonRow_groups pv recs p).1, (wilcoxonRow_groups pv recs p).2]
        by_cases h1 : p.1 = a
        · by_cases h2 : p.2 = b
          · exact absurd (Prod.ext h1 h2) hp
          · simp [h2]
        · simp [h1]
      rw [List.map_cons, List.filter_cons, hne]
      simp only [Bool.false_eq_true, if_false]
      rw [ih, List.count_cons_of_ne (Ne.symm hp)]

/-- C3: over a resolved pair list containing a pair of groups that share
zero paired subjects, the strict build fails with
`InsufficientPairingError`; with `ignore_empty_comparator` set, the build
succeeds with one row per pair, and (when the pair is resolved once, as
the resolver guarantees) the output contains exactly one row for that
pair, with NaN statistic and p-value, the remaining pairs being computed
as usual. -/
theorem wilcoxon_empty_pair_spec (pv : List (ℚ × ℚ) → ℚ)
    (recs : List Record) (ps : List (String × String)) (a b : String)
    (hmem : (a, b) ∈ ps) (hempty : pairedValues recs a b = []) :
    wilcoxon_build pv false recs ps = .error .insufficientPairing ∧
    wilcoxon_build pv true recs ps = .ok (ps.map (wilcoxonRow pv recs)) ∧
    (ps.count (a, b) = 1 →
      (ps.map (wilcoxonRow pv recs)).filter
          (fun r => r.group_a == a && r.group_b == b) =
        [⟨a, b, none, none⟩]) := by
  refine ⟨wilcoxon_build_strict_error pv recs ps hmem hempty,
    wilcoxon_build_ignore pv recs ps, ?_⟩
  intro hcount
  rw [wilcoxon_rows_filter pv recs a b ps, hcount]
  simp [wilcoxonRow, hempty]

/-- C3, witness: groups `g1` and `g2` share no subject, `g1` and `g3`
share subject `s1`. -/
theorem wilcoxon_empty_pair_spec_witness :
    ((("g1", "g2") : String × String) ∈
      [(("g1", "g2") : String × String), ("g1", "g3")]) ∧
    pairedValues
      [⟨"g1", "s1", 1⟩, ⟨"g2", "s2", 2⟩, ⟨"g3", "s1", 3⟩] "g1" "g2" = [] ∧
    wilcoxon_build (fun _ => 0) false
      [⟨"g1", "s1", 1⟩, ⟨"g2", "s2", 2⟩, ⟨"g3", "s1", 3⟩]
      [("g1", "g2"), ("g1", "g3")] = .error .insufficientPairing ∧
    wilcoxon_build (fun _ => 0) true
      [⟨"g1", "s1", 1⟩, ⟨"g2", "s2", 2⟩, ⟨"g3", "s1", 3⟩]
      [("g1", "g2"), ("g1", "g3")] =
      .ok ([("g1", "g2"), ("g1", "g3")].map
        (wilcoxonRow (fun _ => 0)
          [⟨"g1", "s1", 1⟩, ⟨"g2", "s2", 2⟩, ⟨"g3", "s1", 3⟩])) ∧
    ([(("g1", "g2") : String × String), ("g1", "g3")].map
        (wilcoxonRow (fun _ => 0)
          [⟨"g1", "s1", 1⟩, ⟨"g2", "s2", 2⟩, ⟨"g3", "s1", 3⟩])).filter
      (fun r => r.group_a == "g1" && r.group_b == "g2") =
      [⟨"g1", "g2", none, none⟩] := by
  have h := wilcoxon_empty_pair_spec (fun _ => 0)
    [⟨"g1", "s1", 1⟩, ⟨"g2", "s2", 2⟩, ⟨"g3", "s1", 3⟩]
    [("g1", "g2"), ("g1", "g3")] "g1" "g2" (by decide) (by decide)
  exact ⟨by decide, by decide, h.1, h.2.1, h.2.2 (by decide)⟩

/-! ## Facet decomposition and collation

The bodies of `facet_within`, `facet_across` and `collate_stats`
(`q2_stats.meta.facet`) are not under `src/`; the definitions below are
modelled from the spec (sections 4.5 and 4.6).
-/

/-- A record of a `Multi`/nested distribution: the outer facet key (the
top-level group for `Multi`, the outer nesting key for nested tags) plus
the inner record fields. -/
structure MRecord where
  facet : String
  group : String
  subject : String
  value : ℚ
  deriving DecidableEq

/-- The distinct keys of a list, in order of first encounter. -/
def firstOccurrences : List String → List String
  | [] => []
  | k :: ks => k :: (firstOccurrences ks).filter (fun j => j != k)

/-- Modelled from the spec: the facet keys of the missing facet
decomposer — the outer group labels, in the order first encountered in
the input. -/
def facetKeys (recs : List MRecord) : List String :=
  firstOccurrences (recs.map (fun r => r.facet))

/-- The sub-distribution of one facet: the records carrying its key, in
input order. -/
def subDist (recs : List MRecord) (k : String) : List MRecord :=
  recs.filter (fun r => r.facet == k)

/-- Modelled from the spec: the missing facet decomposer
(`q2_stats.meta.facet`) — one (facet key, sub-distribution) pair per
outer key, in order of first encounter. -/
def facetDecompose (recs : List MRecord) : List (String × List MRecord) :=
  (facetKeys recs).map (fun k => (k, subDist recs k))

/-- Modelled from the spec: the missing `collate_stats` body
(`q2_stats.meta.facet`) — concatenate the per-facet tables in facet
order, row order preserved within each facet, writing the facet id onto
every row. -/
def collate_stats {α : Type} (tables : List (String × List α)) :
    List (String × α) :=
  tables.flatMap (fun t => t.2.map (fun r => (t.1, r)))

/-- The faceting pipeline: decompose, run the stats table builder on each
facet's sub-distribution, collate the per-facet tables. -/
def facetPipeline {α : Type} (builder : List MRecord → List α)
    (recs : List MRecord) : List (String × α) :=
  collate_stats ((facetDecompose recs).map (fun f => (f.1, builder f.2)))

/-- First-encounter keys are duplicate-free. -/
theorem firstOccurrences_nodup : ∀ ks : List String,
    (firstOccurrences ks).Nodup := by
  intro ks
  induction ks with
  | nil => exact List.nodup_nil
  | cons k ks ih =>
    rw [firstOccurrences, List.nodup_cons]
    constructor
    · intro hmem
      have := List.of_mem_filter hmem
      simp at this
    · exact ih.filter _

/-- Every collated row's facet id is one of the input tables' keys. -/
theorem collate_mem {α : Type} :
    ∀ (tables : List (String × List α)) (r : String × α),
      r ∈ collate_stats tables → r.1 ∈ tables.map Prod.fst := by
  intro tables
  induction tables with
  | nil => intro r h; simp [collate_stats] at h
  | cons t ts ih =>
    intro r h
    rw [collate_stats, List.flatMap_cons] at h
    rcases List.mem_append.mp h with h1 | h2
    · obtain ⟨x, _, rfl⟩ := List.mem_map.mp h1
      exact List.mem_cons_self _ _
    · exact List.mem_cons_of_mem _ (ih r h2)

/-- Over tables with duplicate-free keys, filtering the collated rows on
one key recovers exactly that key's table. -/
theorem collate_filter {α : Type} :
    ∀ (tables : List (String × List α)), (tables.map Prod.fst).Nodup →
      ∀ (k : String) (l : List α), (k, l) ∈ tables →
        ((collate_stats tables).filter (fun r => r.1 == k)).map
          (fun r => r.2) = l := by
  intro tables
  induction tables with
  | nil => intro _ k l h; simp at h
  | cons t ts ih =>
    obtain ⟨tk, tl⟩ := t
    intro hn k l hmem
    rw [List.map_cons, List.nodup_cons] at hn
    obtain ⟨htk, hnts⟩ := hn
    have hcol : collate_stats ((tk, tl) :: ts) =
        tl.map (fun r => (tk, r)) ++ collate_stats ts := by
      simp only [collate_stats, List.flatMap_cons]
    rw [hcol, List.filter_append]
    rcases List.mem_cons.mp hmem with heq | htail
    · injection heq with h1 h2
      subst h1
      subst h2
      have hfirst : (l.map (fun r => (k, r))).filter
          (fun r => r.1 == k) = l.map (fun r => (k, r)) := by
        rw [List.filter_eq_self]
        intro r hr
        obtain ⟨x, _, rfl⟩ := List.mem_map.mp hr
        simp
      have hsecond : (collate_stats ts).filter (fun r => r.1 == k) = [] := by
        rw [List.filter_eq_nil_iff]
        intro r hr hcontra
        have hr1 : r.1 = k := by simpa using hcontra
        have hmem2 := collate_mem ts r hr
        rw [hr1] at hmem2
        exact htk hmem2
      rw [hfirst, hsecond, List.append_nil, List.map_map]
      simp
    · have hk : k ≠ tk := by
        intro heq
        subst heq
        exact htk (List.mem_map.mpr ⟨(k, l), htail, rfl⟩)
      have hfirst : (tl.map (fun r => (tk, r))).filter
          (fun r => r.1 == k) = [] := by
        rw [List.filter_eq_nil_iff]
        intro r hr hcontra
        obtain ⟨x, _, rfl⟩ := List.mem_map.mp hr
        have hx : tk = k := by simpa using hcontra
        exact hk hx.symm
      rw [hfirst, List.nil_append]
      exact ih hnts k l htail

/-- C7: running the faceting pipeline (decompose, per-facet build,
collate) and grouping the collated rows by facet id recovers exactly the
rows the builder produces on each extracted sub-distribution; every
collated row carries one of the facet keys. -/
theorem facet_collation_refinement {α : Type}
    (builder : List MRecord → List α) (recs : List MRecord) (k : String)
    (hk : k ∈ facetKeys recs) :
    ((facetPipeline builder recs).filter (fun r => r.1 == k)).map
        (fun r => r.2) = builder (subDist recs k) ∧
    ∀ r ∈ facetPipeline builder recs, r.1 ∈ facetKeys recs := by
  have hfst : (((facetDecompose recs).map
      (fun f => (f.1, builder f.2))).map Prod.fst) = facetKeys recs := by
    rw [facetDecompose, List.map_map, List.map_map]
    exact List.map_id _
  constructor
  · apply collate_filter
    · rw [hfst]
      exact firstOccurrences_nodup _
    · refine List.mem_map.mpr ⟨(k, subDist recs k), ?_, rfl⟩
      exact List.mem_map.mpr ⟨k, hk, rfl⟩
  · intro r hr
    have := collate_mem _ r hr
    rw [hfst] at this
    exact this

/-- C7, witness: a three-record distribution with facets `f1` and `f2`,
collated under the builder that reports the sub-distribution's size. -/
theorem facet_collation_refinement_witness :
    ("f1" ∈ facetKeys [⟨"f1", "g1", "s1", 1⟩, ⟨"f2", "g1", "s1", 2⟩,
      ⟨"f1", "g2", "s1", 3⟩]) ∧
    ((facetPipeline (fun l => [l.length])
        [⟨"f1", "g1", "s1", 1⟩, ⟨"f2", "g1", "s1", 2⟩,
          ⟨"f1", "g2", "s1", 3⟩]).filter (fun r => r.1 == "f1")).map
      (fun r => r.2) =
      [(subDist [⟨"f1", "g1", "s1", 1⟩, ⟨"f2", "g1", "s1", 2⟩,
        ⟨"f1", "g2", "s1", 3⟩] "f1").length] := by
  have h := facet_collation_refinement (fun l => [l.length])
    [⟨"f1", "g1", "s1", 1⟩, ⟨"f2", "g1", "s1", 2⟩, ⟨"f1", "g2", "s1", 3⟩]
    "f1" (by decide)
  exact ⟨by decide, h.1⟩

end Q2Stats
